import Mathlib

/-!
Verification of the Mancala board engine (`gameplay.py`) and the deterministic
parts of the learning agent (`reinforcement_player.py`).

The board is a fixed vector of 14 natural numbers: indices 0-5 are Player 1's
plots, index 6 Player 1's store, indices 7-12 Player 2's plots, index 13
Player 2's store.  We model it as a function `Fin 14 → ℕ`.
-/

abbrev Board := Fin 14 → ℕ

/-- Index `n % 14` as an element of `Fin 14`. -/
def finMod (n : ℕ) : Fin 14 := ⟨n % 14, Nat.mod_lt _ (by norm_num)⟩

/-- Add one seed at index `i` (`new_board[(i + passed_opp_store) % 14] += 1`). -/
def bump (b : Board) (i : Fin 14) : Board := Function.update b i (b i + 1)

/-- One iteration of the sowing loop in `move` updates the
`passed_opp_store` counter: it is incremented exactly when the raw
(unwrapped) loop index `i` is the opponent's store index
(`(player == 1 and i == 13) or (player == 2 and i == 6)`). -/
def passedStep (player passed i : ℕ) : ℕ :=
  if (player = 1 ∧ i = 13) ∨ (player = 2 ∧ i = 6) then passed + 1 else passed

/-- One iteration of the sowing loop of `move` in `gameplay.py`: first the
counter check on the raw index `i`, then a seed is dropped at
`(i + passed_opp_store) % 14`. -/
def sowStep (player : ℕ) (st : Board × ℕ) (i : ℕ) : Board × ℕ :=
  (bump st.1 (finMod (i + passedStep player st.2 i)), passedStep player st.2 i)

/-- The sowing loop `for i in range(start+1, start+1+seeds)` of `move`,
starting from board `b` and `passed_opp_store = 0`. -/
def sow (player start seeds : ℕ) (b : Board) : Board × ℕ :=
  (List.range seeds).foldl (fun st k => sowStep player st (start + 1 + k)) (b, 0)

/-- The sowing phase of `move`: read `seeds = board[start]`, zero the start
plot, run the loop.  Returns the sown board and the final
`passed_opp_store` counter. -/
def sowPhase (b : Board) (player : ℕ) (start : Fin 14) : Board × ℕ :=
  sow player start.val (b start) (Function.update b start 0)

/-- `stop = (start + seeds + passed_opp_store) % 14` in `move`. -/
def stopIndex (b : Board) (player : ℕ) (start : Fin 14) : Fin 14 :=
  finMod (start.val + b start + (sowPhase b player start).2)

/-- The plot directly opposite plot `i`: `12 - stop` in `move`. -/
def oppOf (i : Fin 14) : Fin 14 := ⟨12 - i.val, by omega⟩

/-- The store of the given player: index 6 for Player 1, 13 for Player 2. -/
def storeOf (player : ℕ) : Fin 14 := if player = 1 then 6 else 13

/-- The capture mutation of `move`:
`new_board[store] += new_board[12-stop] + 1; new_board[stop] = 0;
new_board[12-stop] = 0`, performed in that order. -/
def captureUpd (b : Board) (store stop opp : Fin 14) : Board :=
  Function.update (Function.update
    (Function.update b store (b store + b opp + 1)) stop 0) opp 0

/-- Player 1's capture branch of `move`:
`if player == 1 and stop < 6 and new_board[stop] == 1 and new_board[12-stop] > 0`. -/
def postCapture1 (b : Board) (player : ℕ) (stop : Fin 14) : Board :=
  if player = 1 ∧ stop.val < 6 ∧ b stop = 1 ∧ 0 < b (oppOf stop) then
    captureUpd b 6 stop (oppOf stop)
  else b

/-- Player 2's capture branch of `move`:
`if player == 2 and 6 < stop < 13 and new_board[stop] == 1 and new_board[12-stop] > 0`. -/
def postCapture2 (b : Board) (player : ℕ) (stop : Fin 14) : Board :=
  if player = 2 ∧ 6 < stop.val ∧ stop.val < 13 ∧ b stop = 1 ∧ 0 < b (oppOf stop) then
    captureUpd b 13 stop (oppOf stop)
  else b

/-- The next-player computation of `move`: `new_player = 3 - player`,
overridden to the mover when `stop` is the mover's own store. -/
def nextPlayer (player : ℕ) (stop : Fin 14) : ℕ :=
  if player = 1 ∧ stop.val = 6 then 1
  else if player = 2 ∧ stop.val = 13 then 2
  else 3 - player

/-- The body of `move` in `gameplay.py` after its argument guards:
sow, compute `stop`, decide the next player, apply the two capture branches
in source order. -/
def moveCore (b : Board) (player : ℕ) (start : Fin 14) : Board × ℕ :=
  (postCapture2
      (postCapture1 (sowPhase b player start).1 player (stopIndex b player start))
      player (stopIndex b player start),
   nextPlayer player (stopIndex b player start))

/-- `move(board, player, start)` from `gameplay.py`, including its guards:
`start < 0 or start >= 13 or start == 6` and `player not in {1, 2}` raise
(modelled as `none`); otherwise the move is applied. -/
def move (b : Board) (player start : ℤ) : Option (Board × ℤ) :=
  if start < 0 ∨ 13 ≤ start ∨ start = 6 then none
  else if player ≠ 1 ∧ player ≠ 2 then none
  else
    some ((moveCore b player.toNat (finMod start.toNat)).1,
          ((moveCore b player.toNat (finMod start.toNat)).2 : ℤ))

/-- `gen_new_board('new')` from `gameplay.py`: the conventional starting
layout, 4 seeds in each plot and empty stores. -/
def gen_new_board : Board := ![4, 4, 4, 4, 4, 4, 0, 4, 4, 4, 4, 4, 4, 0]

/-- `game_over(board)` from `gameplay.py`, on the 14-element sequence it
receives: `not(any(board[:6])) or not(any(board[7:13]))`. -/
def game_over (l : List ℕ) : Bool :=
  ((l.take 6).all fun x => x = 0) || (((l.drop 7).take 6).all fun x => x = 0)

/-!
Definitions from `reinforcement_player.py` (the deterministic data paths of
`ReinforcementPlayer`).  The board handed to these functions has already been
canonicalized: the network always plays as Player 1.
-/

/-- `flip_board(board) = np.roll(board, 7)`: entry `j` of the rolled vector
is entry `(j - 7) mod 14` of the original. -/
def flip_board (b : Board) : Board := fun i => b (i - 7)

/-- `move_to_state((board, next_player))`: `move_again = 2 - next_player`,
appended to the 14 board entries, giving a 15-element state. -/
def move_to_state (mt : Board × ℕ) : List ℕ :=
  (List.ofFn mt.1).concat (2 - mt.2)

/-- Embed a canonical action index (0-5) into the board index range. -/
def plot (i : Fin 6) : Fin 14 := Fin.castLE (by norm_num) i

/-- Row `i` of `possible_states` in `_reward`:
`move_to_state(gameplay.move(board, 1, i))`. -/
def possible_state (b : Board) (i : Fin 6) : List ℕ :=
  move_to_state (moveCore b 1 (plot i))

/-- `bank_gains[i] = possible_states[i, 6] - board[6]` in `_reward`: how much
the move from plot `i` adds to the mover's store. -/
def bank_gain (b : Board) (i : Fin 6) : ℤ :=
  ((moveCore b 1 (plot i)).1 6 : ℤ) - (b 6 : ℤ)

/-- `possible_rewards[i]` as computed by `_reward` in
`reinforcement_player.py`, with `pen` the configured `invalid_reward`
(default −100).  The array is initialised to −1, empty source plots are set
to `pen`, remaining −1 entries with `board[i] == 6 - i` are set to 2, and
the remaining −1 entries are set to `bank_gains[i]`. -/
def reward_r1 (pen : ℤ) (b : Board) (i : Fin 6) : ℤ :=
  if b (plot i) = 0 then pen else -1

def reward_r2 (pen : ℤ) (b : Board) (i : Fin 6) : ℤ :=
  if reward_r1 pen b i = -1 ∧ b (plot i) = 6 - i.val then 2 else reward_r1 pen b i

def reward (pen : ℤ) (b : Board) (i : Fin 6) : ℤ :=
  if reward_r2 pen b i = -1 then bank_gain b i else reward_r2 pen b i

/-- The `next_state` actually recorded by `ReinforcementPlayer.move`: the
unpacking `*next_state, move_again = self.move_to_state(...)` keeps all but
the last element of the 15-element state. -/
def next_state_recorded (b : Board) (decision : Fin 14) : List ℕ :=
  (move_to_state (moveCore b 1 decision)).dropLast

/-- The `move_again` flag split off by the same unpacking: the last element
of the 15-element state. -/
def move_again_of (b : Board) (decision : Fin 14) : ℕ :=
  (move_to_state (moveCore b 1 decision)).getLastD 0

/-- The tuple `(board, decision, reward, next_state, done)` appended to
`self.memory_buffer` by `ReinforcementPlayer.move`, as a function of the
canonical pre-move board, the chosen action and its shaped reward
(the action choice itself is stochastic; the recorded payload is not). -/
def recordedTransition (b : Board) (decision : Fin 14) (reward : ℤ) :
    Board × ℕ × ℤ × List ℕ × Bool :=
  (b, decision.val, reward, next_state_recorded b decision,
   game_over (next_state_recorded b decision))

/-! Sum bookkeeping for the sowing loop and the capture mutation. -/

lemma sum_update_add (b : Board) (i : Fin 14) (v : ℕ) :
    (∑ j, Function.update b i v j) + b i = (∑ j, b j) + v := by
  rw [Finset.sum_update_of_mem (Finset.mem_univ i),
    Finset.sum_eq_sum_diff_singleton_add (Finset.mem_univ i) b]
  ring

lemma bump_sum (b : Board) (i : Fin 14) :
    (∑ j, bump b i j) = (∑ j, b j) + 1 := by
  have h := sum_update_add b i (b i + 1)
  unfold bump
  omega

lemma sowStep_sum (p : ℕ) (st : Board × ℕ) (i : ℕ) :
    (∑ j, (sowStep p st i).1 j) = (∑ j, st.1 j) + 1 :=
  bump_sum st.1 (finMod (i + passedStep p st.2 i))

lemma sow_foldl_sum (p s : ℕ) (l : List ℕ) (st : Board × ℕ) :
    (∑ j, (l.foldl (fun t k => sowStep p t (s + 1 + k)) st).1 j)
      = (∑ j, st.1 j) + l.length := by
  induction l generalizing st with
  | nil => simp
  | cons a t ih =>
      rw [List.foldl_cons, ih, sowStep_sum]
      simp only [List.length_cons]
      omega

lemma sow_sum (p s seeds : ℕ) (b : Board) :
    (∑ j, (sow p s seeds b).1 j) = (∑ j, b j) + seeds := by
  unfold sow
  rw [sow_foldl_sum]
  simp

lemma captureUpd_sum (b : Board) (store stop opp : Fin 14)
    (h1 : b stop = 1) (hso : stop ≠ store) (hpo : opp ≠ store) (hpt : opp ≠ stop) :
    (∑ j, captureUpd b store stop opp j) = ∑ j, b j := by
  have e1 := sum_update_add b store (b store + b opp + 1)
  have e2 := sum_update_add (Function.update b store (b store + b opp + 1)) stop 0
  have e3 := sum_update_add
    (Function.update (Function.update b store (b store + b opp + 1)) stop 0) opp 0
  have v1 : Function.update b store (b store + b opp + 1) stop = b stop :=
    Function.update_noteq hso _ _
  have v2 : Function.update (Function.update b store (b store + b opp + 1)) stop 0 opp
      = b opp := by
    rw [Function.update_noteq hpt, Function.update_noteq hpo]
  unfold captureUpd
  omega

lemma postCapture1_sum (b : Board) (p : ℕ) (stop : Fin 14) :
    (∑ j, postCapture1 b p stop j) = ∑ j, b j := by
  unfold postCapture1
  split_ifs with h
  · obtain ⟨-, hlt, h1, -⟩ := h
    have hopp : (oppOf stop).val = 12 - stop.val := rfl
    refine captureUpd_sum b 6 stop (oppOf stop) h1 ?_ ?_ ?_ <;>
      exact Fin.ne_of_val_ne (by omega)
  · rfl

lemma postCapture2_sum (b : Board) (p : ℕ) (stop : Fin 14) :
    (∑ j, postCapture2 b p stop j) = ∑ j, b j := by
  unfold postCapture2
  split_ifs with h
  · obtain ⟨-, hgt, hlt, h1, -⟩ := h
    have hopp : (oppOf stop).val = 12 - stop.val := rfl
    refine captureUpd_sum b 13 stop (oppOf stop) h1 ?_ ?_ ?_ <;>
      exact Fin.ne_of_val_ne (by omega)
  · rfl

/-- Claim C2: for every board and valid `(player, start)`, `move` preserves
the total number of seeds on the board. -/
theorem C2_seed_conservation (b : Board) (p : ℕ) (s : Fin 14)
    (hp : p = 1 ∨ p = 2) (hs : s.val < 13) (h6 : s.val ≠ 6) :
    (∑ j, (moveCore b p s).1 j) = ∑ j, b j := by
  have hsow : (∑ j, (sowPhase b p s).1 j) = ∑ j, b j := by
    unfold sowPhase
    rw [sow_sum]
    have h := sum_update_add b s 0
    omega
  have hm : (moveCore b p s).1
      = postCapture2 (postCapture1 (sowPhase b p s).1 p (stopIndex b p s)) p
          (stopIndex b p s) := rfl
  rw [hm, postCapture2_sum, postCapture1_sum, hsow]

/-- Witness: seed conservation at the standard board, player 1 moving
from plot 2. -/
theorem C2_seed_conservation_witness :
    ((1 = 1 ∨ 1 = 2) ∧ (2 : Fin 14).val < 13 ∧ (2 : Fin 14).val ≠ 6)
    ∧ (∑ j, (moveCore gen_new_board 1 2).1 j) = ∑ j, gen_new_board j :=
  ⟨⟨Or.inl rfl, by decide, by decide⟩,
   C2_seed_conservation gen_new_board 1 2 (Or.inl rfl) (by decide) (by decide)⟩

/-! The degenerate move from an empty plot. -/

lemma update_self_zero (b : Board) (s : Fin 14) (h0 : b s = 0) :
    Function.update b s 0 = b := by
  funext j
  rcases eq_or_ne j s with h | h
  · subst h; simp [Function.update_same, h0]
  · rw [Function.update_noteq h]

lemma sowPhase_zero (b : Board) (p : ℕ) (s : Fin 14) (h0 : b s = 0) :
    sowPhase b p s = (b, 0) := by
  unfold sowPhase
  rw [h0, update_self_zero b s h0]
  rfl

lemma stopIndex_zero (b : Board) (p : ℕ) (s : Fin 14) (h0 : b s = 0) :
    stopIndex b p s = s := by
  unfold stopIndex
  rw [sowPhase_zero b p s h0, h0]
  exact Fin.ext (by simp [finMod, Nat.mod_eq_of_lt s.isLt])

lemma moveCore_noop (b : Board) (p : ℕ) (s : Fin 14)
    (hs : s.val < 13) (h6 : s.val ≠ 6) (h0 : b s = 0) :
    moveCore b p s = (b, 3 - p) := by
  unfold moveCore
  rw [sowPhase_zero b p s h0, stopIndex_zero b p s h0]
  have hc1 : postCapture1 (b, (0 : ℕ)).1 p s = b := by
    unfold postCapture1
    rw [if_neg]
    rintro ⟨-, -, h1, -⟩
    rw [show (b, (0 : ℕ)).1 = b from rfl, h0] at h1
    exact absurd h1 (by norm_num)
  have hc2 : postCapture2 b p s = b := by
    unfold postCapture2
    rw [if_neg]
    rintro ⟨-, -, -, h1, -⟩
    rw [h0] at h1
    exact absurd h1 (by norm_num)
  have hnp : nextPlayer p s = 3 - p := by
    unfold nextPlayer
    have hn1 : ¬(p = 1 ∧ s.val = 6) := by rintro ⟨-, h⟩; exact h6 h
    have hn2 : ¬(p = 2 ∧ s.val = 13) := by rintro ⟨-, h⟩; omega
    rw [if_neg hn1, if_neg hn2]
  rw [hc1, hc2, hnp]

/-- Claim C5: a move from an empty plot does not fail and degenerates to a
no-op: the board is returned unchanged and the turn passes to `3 - player`. -/
theorem C5_noop_on_empty (b : Board) (p : ℕ) (s : Fin 14)
    (hp : p = 1 ∨ p = 2) (hs : s.val < 13) (h6 : s.val ≠ 6) (h0 : b s = 0) :
    move b (p : ℤ) (s.val : ℤ) = some (b, 3 - (p : ℤ)) := by
  have hg1 : ¬((s.val : ℤ) < 0 ∨ 13 ≤ (s.val : ℤ) ∨ (s.val : ℤ) = 6) := by omega
  have hg2 : ¬((p : ℤ) ≠ 1 ∧ (p : ℤ) ≠ 2) := by
    rcases hp with h | h <;> subst h <;> simp
  unfold move
  rw [if_neg hg1, if_neg hg2]
  have hfin : finMod ((s.val : ℤ)).toNat = s := by
    refine Fin.ext ?_
    have hlt := s.isLt
    simp only [finMod]
    omega
  have hpn : ((p : ℤ)).toNat = p := Int.toNat_natCast p
  rw [hfin, hpn, moveCore_noop b p s hs h6 h0]
  rcases hp with h | h <;> subst h <;> norm_num

/-- Witness: the all-empty board, player 1, start plot 0. -/
theorem C5_noop_on_empty_witness :
    ((1 = 1 ∨ 1 = 2) ∧ (0 : Fin 14).val < 13 ∧ (0 : Fin 14).val ≠ 6
      ∧ (fun _ : Fin 14 => 0) (0 : Fin 14) = 0)
    ∧ move (fun _ : Fin 14 => 0) ((1 : ℕ) : ℤ) (((0 : Fin 14).val : ℤ))
        = some ((fun _ : Fin 14 => 0), 3 - ((1 : ℕ) : ℤ)) :=
  ⟨⟨Or.inl rfl, by decide, by decide, rfl⟩,
   C5_noop_on_empty (fun _ => 0) 1 0 (Or.inl rfl) (by decide) (by decide) rfl⟩

/-! The extra-turn rule. -/

/-- Claim C7: the mover keeps the turn exactly when the landing index is the
mover's own store. -/
theorem C7_extra_turn_iff (b : Board) (p : ℕ) (s : Fin 14)
    (hp : p = 1 ∨ p = 2) (hs : s.val < 13) (h6 : s.val ≠ 6) :
    (moveCore b p s).2 = p ↔ stopIndex b p s = storeOf p := by
  have hm : (moveCore b p s).2 = nextPlayer p (stopIndex b p s) := rfl
  have h6v : ((6 : Fin 14)).val = 6 := by decide
  have h13v : ((13 : Fin 14)).val = 13 := by decide
  rcases hp with h | h <;> subst h <;> rw [hm, Fin.ext_iff]
  · rcases eq_or_ne (stopIndex b 1 s).val 6 with hc | hc
    · unfold nextPlayer storeOf
      rw [if_pos ⟨rfl, hc⟩]
      simp [hc, h6v]
    · unfold nextPlayer storeOf
      rw [if_neg (by rintro ⟨-, hx⟩; exact hc hx),
        if_neg (by rintro ⟨hx, -⟩; norm_num at hx)]
      simp [hc, h6v]
  · rcases eq_or_ne (stopIndex b 2 s).val 13 with hc | hc
    · unfold nextPlayer storeOf
      rw [if_neg (by rintro ⟨hx, -⟩; norm_num at hx), if_pos ⟨rfl, hc⟩]
      simp [hc, h13v]
    · unfold nextPlayer storeOf
      rw [if_neg (by rintro ⟨hx, -⟩; norm_num at hx),
        if_neg (by rintro ⟨-, hx⟩; exact hc hx)]
      simp [hc, h13v]

/-- Witness: the extra-turn example from the spec: standard board, player 1
moving from plot 2 lands in the store; the store reads 1 and the same
player moves again. -/
theorem C7_extra_turn_iff_witness :
    (moveCore gen_new_board 1 2).1 6 = 1 ∧ (moveCore gen_new_board 1 2).2 = 1 :=
  ⟨by decide,
   (C7_extra_turn_iff gen_new_board 1 2 (Or.inl rfl) (by decide) (by decide)).mpr
     (by decide)⟩

/-! The mover's store never loses seeds. -/

lemma bump_le (b : Board) (i j : Fin 14) : b j ≤ bump b i j := by
  unfold bump
  rcases eq_or_ne j i with h | h
  · subst h; rw [Function.update_same]; omega
  · rw [Function.update_noteq h]

lemma sow_foldl_le (p s : ℕ) (l : List ℕ) (st : Board × ℕ) (j : Fin 14) :
    st.1 j ≤ (l.foldl (fun t k => sowStep p t (s + 1 + k)) st).1 j := by
  induction l generalizing st with
  | nil => simp
  | cons a t ih =>
      rw [List.foldl_cons]
      exact le_trans (bump_le st.1 _ j) (ih (sowStep p st (s + 1 + a)))

lemma postCapture1_store_le (b : Board) (p : ℕ) (stop j : Fin 14)
    (hj : j.val = 6 ∨ j.val = 13) :
    b j ≤ postCapture1 b p stop j := by
  unfold postCapture1
  split_ifs with h
  · obtain ⟨-, hlt, -, -⟩ := h
    have hopp : (oppOf stop).val = 12 - stop.val := rfl
    unfold captureUpd
    rw [Function.update_noteq (Fin.ne_of_val_ne (by omega))]
    rw [Function.update_noteq (Fin.ne_of_val_ne (by omega))]
    rcases eq_or_ne j 6 with he | he
    · subst he; rw [Function.update_same]; omega
    · rw [Function.update_noteq he]
  · exact le_refl _

lemma postCapture2_store_le (b : Board) (p : ℕ) (stop j : Fin 14)
    (hj : j.val = 6 ∨ j.val = 13) :
    b j ≤ postCapture2 b p stop j := by
  unfold postCapture2
  split_ifs with h
  · obtain ⟨-, hgt, hlt, -, -⟩ := h
    have hopp : (oppOf stop).val = 12 - stop.val := rfl
    unfold captureUpd
    rw [Function.update_noteq (Fin.ne_of_val_ne (by omega))]
    rw [Function.update_noteq (Fin.ne_of_val_ne (by omega))]
    rcases eq_or_ne j 13 with he | he
    · subst he; rw [Function.update_same]; omega
    · rw [Function.update_noteq he]
  · exact le_refl _

/-- Claim C10: a valid move never decreases the mover's own store entry. -/
theorem C10_store_monotone (b : Board) (p : ℕ) (s : Fin 14)
    (hp : p = 1 ∨ p = 2) (hs : s.val < 13) (h6 : s.val ≠ 6) :
    b (storeOf p) ≤ (moveCore b p s).1 (storeOf p) := by
  have hjval : (storeOf p).val = 6 ∨ (storeOf p).val = 13 := by
    rcases hp with h | h <;> subst h <;> decide
  have hsne : storeOf p ≠ s := by
    refine Fin.ne_of_val_ne ?_
    rcases hjval with h | h <;> omega
  have h1 : b (storeOf p) = Function.update b s 0 (storeOf p) :=
    (Function.update_noteq hsne 0 b).symm
  have h2 : Function.update b s 0 (storeOf p) ≤ (sowPhase b p s).1 (storeOf p) :=
    sow_foldl_le p s.val (List.range (b s)) (Function.update b s 0, 0) (storeOf p)
  have hm : (moveCore b p s).1
      = postCapture2 (postCapture1 (sowPhase b p s).1 p (stopIndex b p s)) p
          (stopIndex b p s) := rfl
  rw [hm, h1]
  refine le_trans h2 (le_trans ?_ (postCapture2_store_le _ p _ _ hjval))
  exact postCapture1_store_le _ p _ _ hjval

/-- Witness: store monotonicity at the standard board, player 1 moving from
plot 3. -/
theorem C10_store_monotone_witness :
    ((1 = 1 ∨ 1 = 2) ∧ (3 : Fin 14).val < 13 ∧ (3 : Fin 14).val ≠ 6)
    ∧ gen_new_board (storeOf 1) ≤ (moveCore gen_new_board 1 3).1 (storeOf 1) :=
  ⟨⟨Or.inl rfl, by decide, by decide⟩,
   C10_store_monotone gen_new_board 1 3 (Or.inl rfl) (by decide) (by decide)⟩

/-! The capture rule. -/

lemma captureUpd_store (b : Board) (store stop opp : Fin 14)
    (hso : store ≠ stop) (hpo : store ≠ opp) :
    captureUpd b store stop opp store = b store + b opp + 1 := by
  unfold captureUpd
  rw [Function.update_noteq hpo, Function.update_noteq hso, Function.update_same]

lemma captureUpd_stop (b : Board) (store stop opp : Fin 14) (hts : stop ≠ opp) :
    captureUpd b store stop opp stop = 0 := by
  unfold captureUpd
  rw [Function.update_noteq hts, Function.update_same]

lemma captureUpd_opp (b : Board) (store stop opp : Fin 14) :
    captureUpd b store stop opp opp = 0 := by
  unfold captureUpd
  rw [Function.update_same]

/-- Claim C6: when the landing plot is one of the mover's own non-store
plots, holds exactly one seed after sowing, and the opposite plot is
non-empty, the opposite plot's seeds plus the landing seed are added to the
mover's store and both plots are zeroed. -/
theorem C6_capture_rule (b : Board) (p : ℕ) (s : Fin 14)
    (hp : p = 1 ∨ p = 2) (hs : s.val < 13) (h6 : s.val ≠ 6)
    (hown : (p = 1 ∧ (stopIndex b p s).val < 6)
      ∨ (p = 2 ∧ 6 < (stopIndex b p s).val ∧ (stopIndex b p s).val < 13))
    (h1 : (sowPhase b p s).1 (stopIndex b p s) = 1)
    (h2 : 0 < (sowPhase b p s).1 (oppOf (stopIndex b p s))) :
    (moveCore b p s).1 (storeOf p)
      = (sowPhase b p s).1 (storeOf p)
          + (sowPhase b p s).1 (oppOf (stopIndex b p s)) + 1
    ∧ (moveCore b p s).1 (stopIndex b p s) = 0
    ∧ (moveCore b p s).1 (oppOf (stopIndex b p s)) = 0 := by
  have hopp : (oppOf (stopIndex b p s)).val = 12 - (stopIndex b p s).val := rfl
  have h6v : ((6 : Fin 14)).val = 6 := by decide
  have h13v : ((13 : Fin 14)).val = 13 := by decide
  rcases hown with ⟨hp1, hlt⟩ | ⟨hp2, hgt, hlt⟩
  · subst hp1
    have hg1 : postCapture1 (sowPhase b 1 s).1 1 (stopIndex b 1 s)
        = captureUpd (sowPhase b 1 s).1 6 (stopIndex b 1 s)
            (oppOf (stopIndex b 1 s)) := by
      unfold postCapture1
      rw [if_pos ⟨rfl, hlt, h1, h2⟩]
    have hg2 : ∀ c : Board, postCapture2 c 1 (stopIndex b 1 s) = c := by
      intro c
      unfold postCapture2
      rw [if_neg (by rintro ⟨hx, -⟩; norm_num at hx)]
    have hm : (moveCore b 1 s).1
        = captureUpd (sowPhase b 1 s).1 6 (stopIndex b 1 s)
            (oppOf (stopIndex b 1 s)) := by
      have hdef : (moveCore b 1 s).1
          = postCapture2 (postCapture1 (sowPhase b 1 s).1 1 (stopIndex b 1 s)) 1
              (stopIndex b 1 s) := rfl
      rw [hdef, hg1, hg2]
    have hst : storeOf 1 = (6 : Fin 14) := rfl
    rw [hm, hst]
    refine ⟨captureUpd_store _ _ _ _ ?_ ?_, captureUpd_stop _ _ _ _ ?_,
      captureUpd_opp _ _ _ _⟩
    · exact Fin.ne_of_val_ne (by omega)
    · exact Fin.ne_of_val_ne (by omega)
    · exact Fin.ne_of_val_ne (by omega)
  · subst hp2
    have hg1 : postCapture1 (sowPhase b 2 s).1 2 (stopIndex b 2 s)
        = (sowPhase b 2 s).1 := by
      unfold postCapture1
      rw [if_neg (by rintro ⟨hx, -⟩; norm_num at hx)]
    have hg2 : postCapture2 (sowPhase b 2 s).1 2 (stopIndex b 2 s)
        = captureUpd (sowPhase b 2 s).1 13 (stopIndex b 2 s)
            (oppOf (stopIndex b 2 s)) := by
      unfold postCapture2
      rw [if_pos ⟨rfl, hgt, hlt, h1, h2⟩]
    have hm : (moveCore b 2 s).1
        = captureUpd (sowPhase b 2 s).1 13 (stopIndex b 2 s)
            (oppOf (stopIndex b 2 s)) := by
      have hdef : (moveCore b 2 s).1
          = postCapture2 (postCapture1 (sowPhase b 2 s).1 2 (stopIndex b 2 s)) 2
              (stopIndex b 2 s) := rfl
      rw [hdef, hg1, hg2]
    have hst : storeOf 2 = (13 : Fin 14) := rfl
    rw [hm, hst]
    refine ⟨captureUpd_store _ _ _ _ ?_ ?_, captureUpd_stop _ _ _ _ ?_,
      captureUpd_opp _ _ _ _⟩
    · exact Fin.ne_of_val_ne (by omega)
    · exact Fin.ne_of_val_ne (by omega)
    · exact Fin.ne_of_val_ne (by omega)

/-- The capture example from the spec. -/
def exB : Board := ![0, 4, 4, 4, 4, 0, 0, 4, 4, 4, 4, 4, 4, 0]

/-- Witness: from `[0,4,4,4,4,0,0,4,4,4,4,4,4,0]`, `move(board, 1, 1)`
captures: the store reads 5 and plots 5 and 7 are zeroed. -/
theorem C6_capture_rule_witness :
    (moveCore exB 1 1).1 6 = 5
    ∧ (moveCore exB 1 1).1 5 = 0 ∧ (moveCore exB 1 1).1 7 = 0 := by
  obtain ⟨ha, hb, hc⟩ := C6_capture_rule exB 1 1 (Or.inl rfl) (by decide) (by decide)
    (Or.inl ⟨rfl, by decide⟩) (by decide) (by decide)
  have hst : storeOf 1 = (6 : Fin 14) := rfl
  have h5 : stopIndex exB 1 1 = (5 : Fin 14) := by decide
  have h7 : oppOf (stopIndex exB 1 1) = (7 : Fin 14) := by decide
  rw [hst] at ha
  rw [h5] at hb
  rw [h7] at hc
  refine ⟨?_, hb, hc⟩
  rw [ha]
  decide

/-! The argument guards of `move`. -/

/-- Claim C8: `move` fails exactly when `start` is a store index or outside
0–12, or `player` is not 1 or 2; on every input satisfying the
precondition it returns a result. -/
theorem C8_invalid_iff (b : Board) (player start : ℤ) :
    move b player start = none
      ↔ (start = 6 ∨ start = 13 ∨ ¬(0 ≤ start ∧ start ≤ 12)
          ∨ ¬(player = 1 ∨ player = 2)) := by
  unfold move
  split_ifs with h1 h2
  · exact iff_of_true rfl (by omega)
  · exact iff_of_true rfl (by
      refine Or.inr (Or.inr (Or.inr ?_))
      rintro (h | h) <;> [exact h2.1 h; exact h2.2 h])
  · refine iff_of_false (by simp) ?_
    push_neg at h1 h2
    omega

/-! Canonicalization. -/

/-- Claim C9: `flip_board` (rotation by 7 of the 14-slot vector) is an
involution: applying it twice returns the original board. -/
theorem C9_flip_involutive (b : Board) : flip_board (flip_board b) = b := by
  funext i
  show b (i - 7 - 7) = b i
  have h : i - 7 - 7 = i := by
    rw [sub_sub, show ((7 : Fin 14) + 7) = 0 from by decide, sub_zero]
  rw [h]

/-! The opponent-store skip. -/

/-- A board with eight seeds in plot 12 and nothing else.  Sowing them as
Player 2 reaches the opponent's store (index 6) on the eighth seed: the
skip check of `move` compares the raw loop counter `i` (here 20) with 6,
so the seed is NOT redirected. -/
def bugBoard : Board := ![0, 0, 0, 0, 0, 0, 0, 0, 0, 0, 0, 0, 8, 0]

/-- Claim C1 fails on the code: `move(bugBoard, 2, 12)` increments the
opponent's store.  Index 6 (Player 1's store, the opponent's store for the
moving Player 2) holds 0 before the move and 1 after it. -/
theorem C1_opp_store_incremented :
    bugBoard (storeOf 1) = 0 ∧ (moveCore bugBoard 2 12).1 (storeOf 1) = 1 := by
  constructor
  · decide
  · decide

/-! The shaped reward. -/

/-- A board with 33 seeds in plot 0 and nothing else.  Moving from plot 0
lands exactly in the mover's store (the landing index is 6), yet the store
gains 3 seeds, so `_reward` assigns 3, not the flat bonus 2: the
extra-turn bonus is keyed on `board[i] == 6 - i`, not on the landing
index. -/
def cexB : Board := ![33, 0, 0, 0, 0, 0, 0, 0, 0, 0, 0, 0, 0, 0]

/-- Claim C3 as stated (reward is the penalty on an empty plot, else 2 when
the move lands exactly in the mover's store, else the store gain) is false
at `cexB`, action 0: the move lands in the store but the reward is 3. -/
theorem C3_counterexample :
    ¬ (reward (-100) cexB 0
        = if cexB (plot 0) = 0 then (-100 : ℤ)
          else if stopIndex cexB 1 (plot 0) = 6 then 2
          else bank_gain cexB 0) := by
  decide

/-- Claim C3, amended: the +2 bonus branch fires exactly when the source
plot satisfies `board[i] == 6 - i` (the seeds reach the store without
wrapping), not whenever the landing index is the store; the penalty must
not be the sentinel −1 for the masking to single out empty plots. -/
theorem C3_reward_formula (pen : ℤ) (b : Board) (i : Fin 6) (hpen : pen ≠ -1) :
    reward pen b i
      = if b (plot i) = 0 then pen
        else if b (plot i) = 6 - i.val then 2
        else bank_gain b i := by
  unfold reward reward_r2 reward_r1
  split_ifs <;> first | omega | simp_all

/-- Witness: the reward formula at the standard board, action 0, with the
default penalty −100. -/
theorem C3_reward_formula_witness :
    ((-100 : ℤ) ≠ -1)
    ∧ reward (-100) gen_new_board 0
        = (if gen_new_board (plot 0) = 0 then (-100 : ℤ)
           else if gen_new_board (plot 0) = 6 - (0 : Fin 6).val then 2
           else bank_gain gen_new_board 0) :=
  ⟨by decide, C3_reward_formula (-100) gen_new_board 0 (by decide)⟩

/-! The recorded transition. -/

/-- Claim C4 as stated is false: the `next_state` recorded into the replay
buffer is NOT the 15-element `move_to_state` vector — the unpacking strips
the trailing flag before the append. -/
theorem C4_counterexample :
    next_state_recorded gen_new_board 2 ≠ move_to_state (moveCore gen_new_board 1 2) := by
  decide

/-- Claim C4, amended: the recorded transition is `(canonical pre-move
board, action, reward, next_state, done)` where `next_state` is the
post-move board vector WITHOUT the move-again flag (14 elements); the flag
is split off and only determines the next player, and the flag-less
14-element representation is also what `_reward` produces for the value
estimator's inputs. -/
theorem C4_recorded_state (b : Board) (d : Fin 14) (r : ℤ) (i : Fin 6) :
    recordedTransition b d r
      = (b, d.val, r, List.ofFn (moveCore b 1 d).1,
         game_over (List.ofFn (moveCore b 1 d).1))
    ∧ move_again_of b d = 2 - (moveCore b 1 d).2
    ∧ (possible_state b i).dropLast = List.ofFn (moveCore b 1 (plot i)).1 := by
  have hdrop : ∀ e : Fin 14, next_state_recorded b e = List.ofFn (moveCore b 1 e).1 := by
    intro e
    unfold next_state_recorded move_to_state
    rw [List.concat_eq_append, List.dropLast_concat]
  refine ⟨?_, ?_, ?_⟩
  · unfold recordedTransition
    rw [hdrop d]
  · unfold move_again_of move_to_state
    rw [List.concat_eq_append, List.getLastD_concat]
  · unfold possible_state move_to_state
    rw [List.concat_eq_append, List.dropLast_concat]
